import Mathlib

set_option autoImplicit false

/-!
Verification of the MCP configuration synchronizer (`mcp_core.py`).

The Python module is shallowly embedded:
* JSON documents become the inductive type `J`; Python `dict`s become
  association lists `List (String × J)` (lookup returns the first binding,
  assignment replaces the value in place, deletion filters the key out).
* Fallible Python code (code that can raise) returns `Option`; `none` marks
  an uncaught runtime exception (`TypeError`, `AttributeError`, ...).
* The filesystem is a table from app name to `FileState`
  (absent / present-but-malformed / present with a parsed document); the
  per-app parent-directory set is a plain list of names.
-/

/-- JSON-like values (the documents `json.load` produces). -/
inductive J where
  | null : J
  | bool : Bool → J
  | num : Int → J
  | str : String → J
  | arr : List J → J
  | obj : List (String × J) → J
  deriving Repr

mutual

/-- Structural equality of JSON values (Python `==` on parsed JSON). -/
def J.beq : J → J → Bool
  | .null, .null => true
  | .bool a, .bool b => a == b
  | .num a, .num b => a == b
  | .str a, .str b => a == b
  | .arr a, .arr b => J.beqList a b
  | .obj a, .obj b => J.beqObj a b
  | _, _ => false

def J.beqList : List J → List J → Bool
  | [], [] => true
  | a :: as, b :: bs => J.beq a b && J.beqList as bs
  | _, _ => false

def J.beqObj : List (String × J) → List (String × J) → Bool
  | [], [] => true
  | (k, v) :: as, (k', v') :: bs => k == k' && J.beq v v' && J.beqObj as bs
  | _, _ => false

end

theorem J.beq_iff_eq_of_le : ∀ (n : Nat) (a b : J), sizeOf a ≤ n →
    (J.beq a b = true ↔ a = b) := by
  intro n
  induction n with
  | zero =>
    intro a b h
    exfalso
    cases a <;> simp at h
  | succ n ih =>
    have ihList : ∀ (as bs : List J), sizeOf as ≤ n + 1 →
        (J.beqList as bs = true ↔ as = bs) := by
      intro as
      induction as with
      | nil => intro bs _; cases bs <;> simp [J.beqList]
      | cons x rest ihr =>
        intro bs h
        cases bs with
        | nil => simp [J.beqList]
        | cons y bs' =>
          have hx : sizeOf x ≤ n := by
            have := h; simp at this; omega
          have hr : sizeOf rest ≤ n + 1 := by
            have := h; simp at this; omega
          simp [J.beqList, ih x y hx, ihr bs' hr]
    have ihObj : ∀ (as bs : List (String × J)), sizeOf as ≤ n + 1 →
        (J.beqObj as bs = true ↔ as = bs) := by
      intro as
      induction as with
      | nil => intro bs _; cases bs <;> simp [J.beqObj]
      | cons x rest ihr =>
        intro bs h
        obtain ⟨k, v⟩ := x
        cases bs with
        | nil => simp [J.beqObj]
        | cons y bs' =>
          obtain ⟨k', v'⟩ := y
          have hx : sizeOf v ≤ n := by
            have := h; simp at this; omega
          have hr : sizeOf rest ≤ n + 1 := by
            have := h; simp at this; omega
          simp [J.beqObj, ih v v' hx, ihr bs' hr]
    intro a b h
    cases a <;> cases b <;> simp [J.beq]
    case arr.arr as bs =>
      have : sizeOf as ≤ n + 1 := by simp at h; omega
      exact ihList as bs this
    case obj.obj as bs =>
      have : sizeOf as ≤ n + 1 := by simp at h; omega
      exact ihObj as bs this

theorem J.beq_iff_eq (a b : J) : J.beq a b = true ↔ a = b :=
  J.beq_iff_eq_of_le (sizeOf a) a b (Nat.le_refl _)

instance : DecidableEq J := fun a b =>
  decidable_of_iff (J.beq a b = true) (J.beq_iff_eq a b)

namespace Dict

/-- First binding for a key (Python `d[k]` / `d.get(k)` on a `dict`). -/
def jget : List (String × J) → String → Option J
  | [], _ => none
  | (k', v) :: rest, k => if k' = k then some v else jget rest k

/-- Python `d.get(k, dflt)`. -/
def getD (m : List (String × J)) (k : String) (dflt : J) : J :=
  (jget m k).getD dflt

/-- Python `k in d` for a `dict`. -/
def hasKey (m : List (String × J)) (k : String) : Bool :=
  (jget m k).isSome

/-- Python `d[k] = v`: replace the value in place if the key exists,
otherwise append the binding at the end. -/
def insertKV : List (String × J) → String → J → List (String × J)
  | [], k, v => [(k, v)]
  | (k', v') :: rest, k, v =>
      if k' = k then (k, v) :: rest else (k', v') :: insertKV rest k v

/-- Python `del d[k]` (all bindings for the key are removed; a Python dict
has at most one). -/
def eraseKey (m : List (String × J)) (k : String) : List (String × J) :=
  m.filter (fun kv => kv.1 ≠ k)

end Dict

open Dict

/-- Substring test on character lists (Python `needle in hay` for strings). -/
def strContainsAux (needle : List Char) : List Char → Bool
  | [] => needle.isEmpty
  | c :: rest => needle.isPrefixOf (c :: rest) || strContainsAux needle rest

/-- Python `needle in hay` for strings. -/
def strContains (hay needle : String) : Bool :=
  strContainsAux needle.data hay.data

/-- Python truthiness of a JSON value. -/
def pyTruthy : J → Bool
  | J.null => false
  | J.bool b => b
  | J.num n => n ≠ 0
  | J.str s => s ≠ ""
  | J.arr xs => !xs.isEmpty
  | J.obj m => !m.isEmpty

/-- Python `key in d` on an arbitrary JSON value: key membership for dicts,
substring test for strings, element equality for lists, `TypeError`
(modelled as `none`) otherwise. -/
def pyContains (k : String) : J → Option Bool
  | J.obj m => some (hasKey m k)
  | J.str s => some (strContains s k)
  | J.arr xs => some (xs.contains (J.str k))
  | _ => none

/-- Python `d[k]` with a string index on an arbitrary JSON value: dict lookup
(`none` would be a `KeyError`); `TypeError` for every other shape. -/
def pySubscript (d : J) (k : String) : Option J :=
  match d with
  | J.obj m => jget m k
  | _ => none

/-- Python `d.get(k, dflt)`: `AttributeError` (`none`) unless `d` is a dict. -/
def pyGetAttr (d : J) (k : String) (dflt : J) : Option J :=
  match d with
  | J.obj m => some (getD m k dflt)
  | _ => none

/-- Python `len(d)`: defined for dicts, lists and strings, `TypeError`
otherwise. -/
def pyLen : J → Option Nat
  | J.obj m => some m.length
  | J.arr xs => some xs.length
  | J.str s => some s.length
  | _ => none

/-- Python `list(d.keys())`: `AttributeError` unless `d` is a dict. -/
def objKeys : J → Option (List String)
  | J.obj m => some (m.map Prod.fst)
  | _ => none

/-- The five configuration format handlers of `mcp_core.py`. -/
inductive Handler where
  | claude : Handler
  | vscode : Handler
  | cursor : Handler
  | standard : Handler
  | legacy : Handler
  deriving DecidableEq, Repr

/-- `detect_format` of each handler, on an arbitrary JSON document
(`none` = uncaught exception inside the predicate). -/
def detect_format : Handler → J → Option Bool
  | .claude, d => pyContains "mcpServers" d
  | .standard, d => pyContains "mcp" d
  | .vscode, d =>
      match pyContains "mcp" d with
      | none => none
      | some false => some false
      | some true =>
          match pySubscript d "mcp" with
          | none => none
          | some (J.obj mm) => pyContains "servers" (J.obj mm)
          | some _ => some false
  | .cursor, d =>
      match pyContains "mcpServers" d with
      | none => none
      | some false => some false
      | some true =>
          match pyContains "mcp" d with
          | none => none
          | some false => some false
          | some true =>
              match pySubscript d "mcp" with
              | none => none
              | some (J.obj _) => some true
              | some _ => some false
  | .legacy, _ => some true

/-- `extract_mcp_config` of each handler (`none` = uncaught exception, e.g.
`.get` on a non-dict document). -/
def extract_mcp_config : Handler → J → Option J
  | .claude, J.obj m =>
      some (J.obj [("format", J.str "claude_desktop"),
                   ("servers", getD m "mcpServers" (J.obj []))])
  | .claude, _ => none
  | .standard, J.obj m => some (getD m "mcp" (J.obj []))
  | .standard, _ => none
  | .vscode, J.obj m =>
      match getD m "mcp" (J.obj []) with
      | J.obj ms =>
          some (J.obj [("format", J.str "vscode"),
                       ("servers", getD ms "servers" (J.obj [])),
                       ("inputs", getD ms "inputs" (J.arr []))])
      | _ => none
  | .vscode, _ => none
  | .cursor, J.obj m =>
      match jget m "mcp" with
      | some (J.obj mm) => some (J.obj mm)
      | _ => some (J.obj [("format", J.str "cursor_legacy"),
                          ("servers", getD m "mcpServers" (J.obj []))])
  | .cursor, _ => none
  | .legacy, _ => some (J.obj [])

/-- `merge_mcp_config` of each handler. Every variant starts from
`existing_config.copy()` and assigns string keys, so a non-dict existing
document raises (`none`). -/
def merge_mcp_config : Handler → J → J → Option J
  | .claude, J.obj m, mcp =>
      match mcp with
      | J.obj mm =>
          if hasKey mm "servers" then
            some (J.obj (insertKV m "mcpServers" (getD mm "servers" J.null)))
          else if hasKey mm "mcpServers" then
            some (J.obj (insertKV m "mcpServers" (getD mm "mcpServers" J.null)))
          else
            some (J.obj (insertKV m "mcpServers" mcp))
      | _ => some (J.obj (insertKV m "mcpServers" mcp))
  | .claude, _, _ => none
  | .standard, J.obj m, mcp => some (J.obj (insertKV m "mcp" mcp))
  | .standard, _, _ => none
  | .legacy, J.obj m, mcp => some (J.obj (insertKV m "mcp" mcp))
  | .legacy, _, _ => none
  | .cursor, J.obj m, mcp =>
      some (J.obj (eraseKey (insertKV m "mcp" mcp) "mcpServers"))
  | .cursor, _, _ => none
  | .vscode, J.obj m, mcp =>
      let m1 := if hasKey m "mcp" then m else insertKV m "mcp" (J.obj [])
      match getD m1 "mcp" J.null with
      | J.obj sec =>
          let sec1 :=
            match mcp with
            | J.obj mm =>
                if hasKey mm "servers" then
                  let s2 := insertKV sec "servers" (getD mm "servers" J.null)
                  if hasKey mm "inputs" then
                    insertKV s2 "inputs" (getD mm "inputs" J.null)
                  else s2
                else if hasKey mm "mcpServers" then
                  insertKV sec "servers" (getD mm "mcpServers" J.null)
                else
                  insertKV sec "servers" mcp
            | _ => insertKV sec "servers" mcp
          let sec2 :=
            if hasKey sec1 "inputs" then sec1
            else insertKV sec1 "inputs" (J.arr [])
          some (J.obj (insertKV m1 "mcp" (J.obj sec2)))
      | _ => none
  | .vscode, _, _ => none

/-- `FORMAT_HANDLERS` in its source order (the comment in the source says
"order matters - most specific first"). -/
def FORMAT_HANDLERS : List Handler :=
  [.claude, .vscode, .cursor, .standard, .legacy]

/-- Probe a handler list in order, returning the first whose
`detect_format` answers true (`none` = an exception inside a predicate). -/
def detectIn : List Handler → J → Option Handler
  | [], _ => some .legacy
  | h :: rest, d =>
      match detect_format h d with
      | none => none
      | some true => some h
      | some false => detectIn rest d

/-- `MCPConfigSynchronizer.detect_config_format`. -/
def detect_config_format (d : J) : Option Handler :=
  detectIn FORMAT_HANDLERS d

/-- `MCPConfigSynchronizer.get_app_handler` via the `APP_HANDLERS` table
(default `StandardMCPHandler`). -/
def get_app_handler (app : String) : Handler :=
  if app = "Claude" then .claude
  else if app = "VSCode" then .vscode
  else if app = "Cursor" then .cursor
  else .standard

/-- The top-level keys a handler's `merge_mcp_config` may touch (its
MCP-relevant keys): ClaudeDesktop rewrites `mcpServers`; VSCode, Standard
and Legacy rewrite `mcp`; Cursor rewrites `mcp` and deletes `mcpServers`. -/
def mcpRelevantKeys : Handler → List String
  | .claude => ["mcpServers"]
  | .vscode => ["mcp"]
  | .cursor => ["mcp", "mcpServers"]
  | .standard => ["mcp"]
  | .legacy => ["mcp"]

/-- Is a JSON value a mapping (`isinstance(x, dict)`)? -/
def J.isObj : J → Bool
  | J.obj _ => true
  | _ => false

/-- The inner `deep_merge` of `MCPConfigSynchronizer.merge_configs`.
For each overlay item `(k, v)`: if `v` is a dict and `k` is in the base,
recurse into the base's value at `k` (whatever it is); otherwise assign
`v`. A recursion whose base side is not a dict raises unless the overlay
dict is empty (`none` = raised). A non-dict overlay has no `.items()`
(`none`), except that the code returns the base unchanged when the overlay
dict is empty. -/
def deep_merge : J → J → Option J
  | d1, J.obj [] => some d1
  | J.obj m, J.obj ((k, v) :: rest) =>
      match v with
      | J.obj vo =>
          match jget m k with
          | some b =>
              match deep_merge b (J.obj vo) with
              | none => none
              | some merged => deep_merge (J.obj (insertKV m k merged)) (J.obj rest)
          | none => deep_merge (J.obj (insertKV m k (J.obj vo))) (J.obj rest)
      | _ => deep_merge (J.obj (insertKV m k v)) (J.obj rest)
  | _, J.obj (_ :: _) => none
  | _, _ => none
termination_by d1 d2 => sizeOf d2
decreasing_by all_goals (simp_wf <;> omega)

/-- `MCPConfigSynchronizer.merge_configs`: `existing_config.copy()` (which
raises unless the value is a dict or a list) followed by `deep_merge`. -/
def merge_configs (e n : J) : Option J :=
  match e with
  | J.obj _ => deep_merge e n
  | J.arr _ => deep_merge e n
  | _ => none

/-- Modelled from the spec (§4.3 `deepMerge`): recursive key-wise merge;
for a key present in both where both values are mappings, recurse;
otherwise the overlay's value wins. -/
def specDeepMerge : J → J → J
  | d1, J.obj [] => d1
  | J.obj m, J.obj ((k, v) :: rest) =>
      match v, jget m k with
      | J.obj vo, some (J.obj b) =>
          specDeepMerge (J.obj (insertKV m k (specDeepMerge (J.obj b) (J.obj vo)))) (J.obj rest)
      | _, _ => specDeepMerge (J.obj (insertKV m k v)) (J.obj rest)
  | d1, _ => d1
termination_by d1 d2 => sizeOf d2
decreasing_by all_goals (simp_wf <;> omega)

/-- Deep-merge compatibility: at every key where the overlay holds a
mapping and the base holds a value, the base's value is itself a mapping,
recursively (the domain on which `deep_merge` and `specDeepMerge` agree). -/
def mergeOk : J → J → Bool
  | _, J.obj [] => true
  | J.obj m, J.obj ((k, v) :: rest) =>
      match v with
      | J.obj vo =>
          match jget m k with
          | some (J.obj b) =>
              mergeOk (J.obj b) (J.obj vo) &&
                mergeOk (J.obj (insertKV m k (specDeepMerge (J.obj b) (J.obj vo)))) (J.obj rest)
          | some _ => false
          | none => mergeOk (J.obj (insertKV m k (J.obj vo))) (J.obj rest)
      | _ => mergeOk (J.obj (insertKV m k v)) (J.obj rest)
  | _, J.obj (_ :: _) => false
  | _, _ => false
termination_by d1 d2 => sizeOf d2
decreasing_by all_goals (simp_wf <;> omega)

mutual

/-- Well-formed JSON as produced by `json.load`: every object has
pairwise-distinct keys, recursively. -/
def WFj : J → Bool
  | J.obj m => decide (m.map Prod.fst).Nodup && WFobj m
  | J.arr xs => WFarr xs
  | _ => true
termination_by d => sizeOf d
decreasing_by all_goals (simp_wf <;> omega)

/-- `WFj` over an object's bindings. -/
def WFobj : List (String × J) → Bool
  | [] => true
  | (_, v) :: rest => WFj v && WFobj rest
termination_by l => sizeOf l
decreasing_by all_goals (simp_wf <;> omega)

/-- `WFj` over an array's elements. -/
def WFarr : List J → Bool
  | [] => true
  | v :: rest => WFj v && WFarr rest
termination_by l => sizeOf l
decreasing_by all_goals (simp_wf <;> omega)

end

/-- State of one config file on disk. -/
inductive FileState where
  | absent : FileState
  | malformed : FileState
  | valid : J → FileState
  deriving DecidableEq, Repr

/-- `Path.exists()`. -/
def fileExists : FileState → Bool
  | .absent => false
  | _ => true

/-- `MCPConfigSynchronizer.load_existing_config`: `{}` for an absent file,
`None` (here `none`) for a present file that fails to parse, the parsed
document otherwise. -/
def load_existing_config : FileState → Option J
  | .absent => some (J.obj [])
  | .malformed => none
  | .valid d => some d

/-- One entry of the list `check_destructive_operations` returns. -/
structure DestructiveReport where
  app_name : String
  existing_servers : List String
  lost_servers : List String
  remaining_servers : List String
  deriving DecidableEq, Repr

/-- The body of `check_destructive_operations` for one target.
`none` = uncaught exception; `some none` = target not reported;
`some (some r)` = target reported. -/
def check_destructive_one (sourceServers : J) (app : String) (st : FileState) :
    Option (Option DestructiveReport) :=
  if fileExists st = false then some none
  else
    match load_existing_config st with
    | none => some none
    | some doc =>
      match detect_config_format doc with
      | none => none
      | some h =>
        match extract_mcp_config h doc with
        | none => none
        | some ex =>
          match pyGetAttr ex "servers" (J.obj []) with
          | none => none
          | some existingServers =>
            if pyTruthy existingServers then
              match pyLen existingServers, pyLen sourceServers with
              | some le, some ls =>
                if ls < le then
                  match objKeys existingServers, objKeys sourceServers with
                  | some ek, some sk =>
                      let lost := ek.filter (fun k => !sk.contains k)
                      if lost.isEmpty then some none
                      else some (some ⟨app, ek, lost, sk⟩)
                  | _, _ => none
                else some none
              | _, _ => none
            else some none

/-- The loop of `check_destructive_operations` over the installed apps. -/
def check_destructive_loop (sourceServers : J) :
    List (String × FileState) → Option (List DestructiveReport)
  | [] => some []
  | (app, st) :: rest =>
    match check_destructive_one sourceServers app st with
    | none => none
    | some r =>
      match check_destructive_loop sourceServers rest with
      | none => none
      | some rs => some (match r with | some rep => rep :: rs | none => rs)

/-- `MCPConfigSynchronizer.check_destructive_operations`: the canonical
config's `servers` (via `.get`, raising on a non-dict config), then the
per-target loop. -/
def check_destructive_operations (apps : List (String × FileState)) (config : J) :
    Option (List DestructiveReport) :=
  match pyGetAttr config "servers" (J.obj []) with
  | none => none
  | some src => check_destructive_loop src apps

/-- Per-app outcome recorded by `update_configs`. -/
structure SyncRes where
  success : Bool
  action : String
  deriving DecidableEq, Repr

/-- The `try` body of `update_configs` for one target: skip on parse error,
merge through the app's preferred handler, write the merged document
(an exception inside the body is recorded as a failure). -/
def update_one (config : J) (app : String) (st : FileState) : SyncRes × FileState :=
  match load_existing_config st with
  | none => (⟨false, "skipped"⟩, st)
  | some existing =>
    match merge_mcp_config (get_app_handler app) existing config with
    | none => (⟨false, "failed"⟩, st)
    | some updated =>
        (⟨true, if fileExists st then "updated" else "created"⟩, FileState.valid updated)

/-- The write loop of `update_configs` over the installed apps. -/
def update_loop (config : J) :
    List (String × FileState) → List (String × SyncRes) × List (String × FileState)
  | [] => ([], [])
  | (app, st) :: rest =>
    let r := update_one config app st
    let rs := update_loop config rest
    ((app, r.1) :: rs.1, (app, r.2) :: rs.2)

/-- The `if custom_config:` step of `update_configs`: merge a truthy custom
config into the canonical one. -/
def applyCustom (config : J) (custom : Option J) : Option J :=
  match custom with
  | none => some config
  | some c => if pyTruthy c then merge_configs config c else some config

/-- `MCPConfigSynchronizer.update_configs`. The filesystem is the
`List (String × FileState)` table itself; `dirs` is the set of app names
whose parent directory exists; `confirms` is the operator's answer to the
destructive-change prompt. Returns `(results, filesystem, dirs, canonical)`
or `none` for an uncaught exception. -/
def update_configs (apps : List (String × FileState)) (dirs : List String)
    (config : J) (custom : Option J) (force : Bool) (confirms : Bool) :
    Option (List (String × SyncRes) × List (String × FileState) × List String × J) :=
  let dirs1 := apps.map Prod.fst ++ dirs
  match applyCustom config custom with
  | none => none
  | some config1 =>
    match check_destructive_operations apps config1 with
    | none => none
    | some ds =>
      if !ds.isEmpty && !force && !confirms then
        some (apps.map (fun p => (p.1, ⟨false, "cancelled"⟩)), apps, dirs1, config1)
      else
        let r := update_loop config1 apps
        some (r.1, r.2, dirs1, config1)

/-- Per-app outcome recorded by `validate_configs`. -/
structure ValRes where
  in_sync : Bool
  reason : Option String
  deriving DecidableEq, Repr

mutual

/-- The inner `check_nested_dict` of `validate_configs`, walking the keys
of the reference (`none` = uncaught exception, e.g. iterating a non-dict
reference). -/
def check_nested_j : J → J → Option Bool
  | J.obj refs, app => checkItems refs app
  | _, _ => none
termination_by r a => sizeOf r
decreasing_by all_goals (simp_wf <;> omega)

/-- One pass of `check_nested_dict` over the reference's items. -/
def checkItems : List (String × J) → J → Option Bool
  | [], _ => some true
  | (k, rv) :: rest, app =>
    if k = "format" then checkItems rest app
    else
      match pyContains k app with
      | none => none
      | some false =>
          match checkItems rest app with
          | none => none
          | some _ => some false
      | some true =>
        match pySubscript app k with
        | none => none
        | some av =>
          match rv, av with
          | J.obj r2, J.obj a2 =>
            match check_nested_j (J.obj r2) (J.obj a2) with
            | none => none
            | some b =>
              match checkItems rest app with
              | none => none
              | some b2 => some (b && b2)
          | _, _ =>
            if rv = av then checkItems rest app
            else
              match checkItems rest app with
              | none => none
              | some _ => some false
termination_by l a => sizeOf l
decreasing_by all_goals (simp_wf <;> omega)

end

/-- The body of `validate_configs` for one target. -/
def validate_one (reference : J) (st : FileState) : Option ValRes :=
  if fileExists st = false then some ⟨false, some "missing"⟩
  else
    match load_existing_config st with
    | none => some ⟨false, some "parse_error"⟩
    | some doc =>
      match detect_config_format doc with
      | none => none
      | some h =>
        match extract_mcp_config h doc with
        | none => none
        | some mcp =>
          if h = .claude then
            let refServers :=
              match reference with
              | J.obj rm => if hasKey rm "servers" then getD rm "servers" J.null else J.obj []
              | _ => J.obj []
            let appServers :=
              match mcp with
              | J.obj am => if hasKey am "servers" then getD am "servers" J.null else J.obj []
              | _ => J.obj []
            if !pyTruthy refServers && pyTruthy reference then
              some ⟨true, some "format_mismatch_skip"⟩
            else if appServers = refServers then some ⟨true, none⟩
            else some ⟨false, some "mismatch"⟩
          else
            match check_nested_j reference mcp with
            | none => none
            | some b =>
              if b then some ⟨true, none⟩ else some ⟨false, some "mismatch"⟩

/-- The loop of `validate_configs` over the installed apps. -/
def validate_loop (reference : J) :
    List (String × FileState) → Option (List (String × ValRes))
  | [] => some []
  | (app, st) :: rest =>
    match validate_one reference st with
    | none => none
    | some v =>
      match validate_loop reference rest with
      | none => none
      | some vs => some ((app, v) :: vs)

/-- `MCPConfigSynchronizer.validate_configs` with an explicit reference
config: returns `(all_in_sync, per-app results)`. -/
def validate_configs (apps : List (String × FileState)) (reference : J) :
    Option (Bool × List (String × ValRes)) :=
  match validate_loop reference apps with
  | none => none
  | some vs => some (vs.all (fun p => p.2.in_sync), vs)

/-- The overall status `print_report` derives: `SUCCESS` iff every write
succeeded and every target validated in sync. -/
def overall_status (rs : List (String × SyncRes)) (vs : List (String × ValRes)) : String :=
  let allSuccess := rs.all (fun p => p.2.success)
  let allInSync := vs.all (fun p => p.2.in_sync)
  if allSuccess && allInSync then "SUCCESS"
  else if allSuccess then "PARTIAL_SUCCESS"
  else "FAILED"

/-- `MCPConfigSynchronizer.sync_from_file`. `srcState` is the state of the
resolved source file (a known app's configured path, or a literal path).
Returns `(returned bool, canonical config, filesystem, dirs)`, or `none`
for an uncaught exception. -/
def sync_from_file (apps : List (String × FileState)) (dirs : List String)
    (srcState : FileState) (config : J) (force : Bool) (confirms : Bool) :
    Option (Bool × J × List (String × FileState) × List String) :=
  if fileExists srcState = false then some (false, config, apps, dirs)
  else
    match load_existing_config srcState with
    | none => some (false, config, apps, dirs)
    | some doc =>
      match detect_config_format doc with
      | none => none
      | some h =>
        match extract_mcp_config h doc with
        | none => none
        | some mcp =>
          if !pyTruthy mcp then some (false, config, apps, dirs)
          else
            match update_configs apps dirs mcp none force confirms with
            | none => none
            | some (rs, fs1, dirs1, config1) =>
              match validate_configs fs1 config1 with
              | none => none
              | some (_, vs) =>
                some (overall_status rs vs = "SUCCESS", config1, fs1, dirs1)

/-- Events the `MCPConfigWatcher` sees for one watched app: a filesystem
modification of the app's config file (carrying the event's path), or one
unit of time passing. -/
inductive DebEv where
  | modify : String → DebEv
  | tick : DebEv
  deriving DecidableEq, Repr

/-- One step of `MCPConfigWatcher` for a single app with debounce delay
`D` ticks. The state is the pending timer (`remaining ticks`, scheduled
file path). `on_modified` returns without scheduling while a sync is
pending (`_is_sync_in_progress`); otherwise `_schedule_sync` starts a
timer. A tick decrements the pending timer; when it reaches zero the timer
fires, `_execute_sync` runs with the scheduled path (emitted in the output
list) and the pending slot is cleared. -/
def debStep (D : Nat) : Option (Nat × String) → DebEv → Option (Nat × String) × List String
  | st, .modify p =>
      match st with
      | some t => (some t, [])
      | none => (some (D, p), [])
  | st, .tick =>
      match st with
      | none => (none, [])
      | some (0, p) => (none, [p])
      | some (n + 1, p) => (some (n, p), [])

/-- Run the watcher over a sequence of events, collecting the sync calls
it triggers (the file paths passed to `_execute_sync`). -/
def debRun (D : Nat) : Option (Nat × String) → List DebEv → Option (Nat × String) × List String
  | st, [] => (st, [])
  | st, e :: rest =>
      let r := debStep D st e
      let r2 := debRun D r.1 rest
      (r2.1, r.2 ++ r2.2)

namespace Dict

theorem jget_insertKV (m : List (String × J)) (k k' : String) (v : J) :
    jget (insertKV m k v) k' = if k = k' then some v else jget m k' := by
  induction m with
  | nil => simp [insertKV, jget]
  | cons kv rest ih =>
    obtain ⟨k0, v0⟩ := kv
    by_cases h0 : k0 = k
    · subst h0
      simp [insertKV, jget]
      by_cases h1 : k0 = k'
      · subst h1; simp
      · simp [h1, jget]
    · simp [insertKV, h0, jget]
      by_cases h1 : k0 = k'
      · subst h1
        have : ¬ (k = k0) := fun h => h0 h.symm
        simp [this]
      · simp [h1, ih]

theorem jget_eraseKey (m : List (String × J)) (k k' : String) :
    jget (eraseKey m k) k' = if k = k' then none else jget m k' := by
  induction m with
  | nil => simp [eraseKey, jget]
  | cons kv rest ih =>
    obtain ⟨k0, v0⟩ := kv
    by_cases h0 : k0 = k
    · subst h0
      simp [eraseKey, jget] at ih ⊢
      by_cases h1 : k0 = k'
      · subst h1; simp [ih]
      · simp [h1, ih]
    · simp [eraseKey, h0, jget] at ih ⊢
      by_cases h1 : k0 = k'
      · subst h1
        have : ¬ (k = k0) := fun h => h0 h.symm
        simp [this, jget, h0]
      · simp [h1, ih, jget, h0]

end Dict

/-- Claim C1 (code_bug evidence): on a document that contains both an
`mcpServers` key and a dict-valued `mcp` key, `detect_config_format`
returns the ClaudeDesktop handler — not the Cursor handler the claim (and
the source's own "most specific first" comment) require — because
`ClaudeDesktopHandler` precedes `CursorHandler` in `FORMAT_HANDLERS` and
its predicate only needs `mcpServers`. -/
theorem claim_C1 :
    detect_config_format (J.obj [("mcpServers", J.obj []), ("mcp", J.obj [])])
      = some Handler.claude ∧ Handler.claude ≠ Handler.cursor := by
  constructor
  · decide
  · decide

/-- Claim C8 counterexample: with base `{"k": "s"}` and overlay
`{"k": {}}` the key is present in both and the two values are not both
mappings, so per the claim the overlay's value `{}` must win; the code
instead recurses into the non-mapping base value and keeps `"s"`. -/
theorem claim_C8_counterexample :
    merge_configs (J.obj [("k", J.str "s")]) (J.obj [("k", J.obj [])])
      = some (J.obj [("k", J.str "s")]) ∧
    specDeepMerge (J.obj [("k", J.str "s")]) (J.obj [("k", J.obj [])])
      = J.obj [("k", J.obj [])] ∧
    some (J.obj [("k", J.str "s")]) ≠ some (J.obj [("k", J.obj [])]) := by
  refine ⟨?_, ?_, by decide⟩
  · simp [merge_configs, deep_merge, Dict.jget, Dict.insertKV]
  · simp [specDeepMerge, Dict.jget, Dict.insertKV]

theorem deep_merge_eq_spec (d1 d2 : J) (hok : mergeOk d1 d2 = true) :
    deep_merge d1 d2 = some (specDeepMerge d1 d2) := by
  induction d1, d2 using mergeOk.induct with
  | case1 d1 => simp [deep_merge, specDeepMerge, mergeOk]
  | case2 m k vo rest b hjk ih1 ih2 =>
    rw [mergeOk] at hok
    simp [hjk] at hok
    rw [deep_merge.eq_def, specDeepMerge.eq_def]
    simp only [hjk]
    simp [ih1 hok.1, ih2 hok.2]
  | case3 m k vo rest b hjk hb =>
    rw [mergeOk.eq_def] at hok
    simp only [hjk] at hok
    cases b <;> simp_all
  | case4 m k vo rest hjk ih =>
    rw [mergeOk] at hok
    simp [hjk] at hok
    rw [deep_merge.eq_def, specDeepMerge.eq_def]
    simp only [hjk]
    simp [ih hok]
  | case5 m k v rest hv ih =>
    rw [mergeOk.eq_def] at hok
    rw [deep_merge.eq_def, specDeepMerge.eq_def]
    cases v <;> simp_all
  | case6 d1 d2 h1 h2 => simp [mergeOk] at hok <;> simp_all
  | case7 d1 d2 h1 h2 h3 => simp [mergeOk] at hok <;> simp_all

/-- Claim C8 (amended): `merge_configs` implements the spec's recursive
key-wise deep merge on every pair of mappings that is deep-merge
compatible (`mergeOk`: wherever the overlay holds a mapping at a key
present in the base, the base's value is itself a mapping, recursively).
Outside that domain the overlay's value does not win: over a non-mapping
base value, an empty overlay mapping leaves the base's value in place,
and a non-empty overlay mapping raises a `TypeError`. -/
theorem claim_C8 :
    (∀ (b o : List (String × J)), mergeOk (J.obj b) (J.obj o) = true →
      merge_configs (J.obj b) (J.obj o) = some (specDeepMerge (J.obj b) (J.obj o))) ∧
    (∀ (k : String) (v : J), v.isObj = false →
      merge_configs (J.obj [(k, v)]) (J.obj [(k, J.obj [])])
        = some (J.obj [(k, v)])) ∧
    (∀ (k k2 : String) (v w : J), v.isObj = false →
      merge_configs (J.obj [(k, v)]) (J.obj [(k, J.obj [(k2, w)])]) = none) := by
  refine ⟨?_, ?_, ?_⟩
  · intro b o hok
    simpa [merge_configs] using deep_merge_eq_spec (J.obj b) (J.obj o) hok
  · intro k v hv
    simp only [merge_configs]
    rw [deep_merge.eq_def]
    simp [Dict.jget, Dict.insertKV, deep_merge]
  · intro k k2 v w hv
    simp only [merge_configs]
    rw [deep_merge.eq_def]
    simp only [Dict.jget, if_pos rfl]
    cases v <;> simp_all [J.isObj, deep_merge]

/-- Witness for C8: a concrete compatible pair on which the code and the
spec merge agree, evaluated explicitly. -/
theorem claim_C8_witness :
    mergeOk (J.obj [("a", J.obj [("x", J.num 1)]), ("c", J.num 2)])
        (J.obj [("a", J.obj [("y", J.num 3)]), ("c", J.num 5)]) = true ∧
    merge_configs (J.obj [("a", J.obj [("x", J.num 1)]), ("c", J.num 2)])
        (J.obj [("a", J.obj [("y", J.num 3)]), ("c", J.num 5)])
      = some (specDeepMerge (J.obj [("a", J.obj [("x", J.num 1)]), ("c", J.num 2)])
          (J.obj [("a", J.obj [("y", J.num 3)]), ("c", J.num 5)])) ∧
    specDeepMerge (J.obj [("a", J.obj [("x", J.num 1)]), ("c", J.num 2)])
        (J.obj [("a", J.obj [("y", J.num 3)]), ("c", J.num 5)])
      = J.obj [("a", J.obj [("x", J.num 1), ("y", J.num 3)]), ("c", J.num 5)] := by
  refine ⟨?_, ?_, ?_⟩
  · simp [mergeOk, specDeepMerge, Dict.jget, Dict.insertKV]
  · exact claim_C8.1 _ _ (by simp [mergeOk, specDeepMerge, Dict.jget, Dict.insertKV])
  · simp [specDeepMerge, Dict.jget, Dict.insertKV]

/-- Number of clock ticks in an event sequence. -/
def tickCount (es : List DebEv) : Nat := es.count DebEv.tick

theorem debRun_append (D : Nat) (st : Option (Nat × String)) (a b : List DebEv) :
    debRun D st (a ++ b)
      = ((debRun D (debRun D st a).1 b).1,
         (debRun D st a).2 ++ (debRun D (debRun D st a).1 b).2) := by
  induction a generalizing st with
  | nil => simp [debRun]
  | cons e rest ih => simp [debRun, ih, List.append_assoc]

theorem debRun_pending (D : Nat) (es : List DebEv) :
    ∀ (c : Nat) (p : String), tickCount es ≤ c →
      debRun D (some (c, p)) es = (some (c - tickCount es, p), []) := by
  induction es with
  | nil => intro c p _; simp [debRun, tickCount]
  | cons e rest ih =>
    intro c p h
    cases e with
    | modify q =>
      have h' : tickCount rest ≤ c := by
        simpa [tickCount] using h
      simp [debRun, debStep, ih c p h', tickCount]
    | tick =>
      have hc : 1 + tickCount rest ≤ c := by
        simpa [tickCount, Nat.add_comm] using h
      obtain ⟨c', rfl⟩ : ∃ c', c = c' + 1 := ⟨c - 1, by omega⟩
      have h' : tickCount rest ≤ c' := by omega
      simp [debRun, debStep, ih c' p h', tickCount]

theorem debRun_none_ticks (D : Nat) (k : Nat) :
    debRun D none (List.replicate k DebEv.tick) = (none, []) := by
  induction k with
  | zero => simp [debRun]
  | succ k ih => simp [List.replicate_succ, debRun, debStep, ih]

theorem debRun_fire (D : Nat) :
    ∀ (c k : Nat) (p : String), c < k →
      debRun D (some (c, p)) (List.replicate k DebEv.tick) = (none, [p]) := by
  intro c
  induction c with
  | zero =>
    intro k p hk
    obtain ⟨k', rfl⟩ : ∃ k', k = k' + 1 := ⟨k - 1, by omega⟩
    simp [List.replicate_succ, debRun, debStep, debRun_none_ticks]
  | succ c ih =>
    intro k p hk
    obtain ⟨k', rfl⟩ : ∃ k', k = k' + 1 := ⟨k - 1, by omega⟩
    have : c < k' := by omega
    simp [List.replicate_succ, debRun, debStep, ih k' p this]

/-- Claim C3 counterexample: with a debounce delay of 2 ticks, two modify
events inside one window followed by enough ticks trigger exactly one sync
call, but it uses the FIRST event's path "a", not the last event's path
"b" as the claim states — the second event is ignored, not re-scheduled. -/
theorem claim_C3_counterexample :
    debRun 2 none [DebEv.modify "a", DebEv.modify "b",
        DebEv.tick, DebEv.tick, DebEv.tick]
      = (none, ["a"]) ∧ ["a"] ≠ ["b"] := by
  constructor
  · decide
  · decide

/-- Claim C3 (amended): for every app, N ≥ 1 modification events arriving
while the debounce window of the first is still open trigger exactly one
sync call, scheduled from the FIRST event's file path; an event arriving
while a timer is Pending is ignored (`_is_sync_in_progress` returns early),
leaving the pending timer and its window unchanged. -/
theorem claim_C3 :
    (∀ (D : Nat) (p : String) (m : List DebEv) (k : Nat),
      tickCount m ≤ D → D - tickCount m < k →
      debRun D none (DebEv.modify p :: m ++ List.replicate k DebEv.tick)
        = (none, [p])) ∧
    (∀ (D : Nat) (t : Nat × String) (q : String),
      debStep D (some t) (DebEv.modify q) = (some t, [])) := by
  constructor
  · intro D p m k hm hk
    have h2 := debRun_pending D m D p hm
    have h3 := debRun_fire D (D - tickCount m) k p hk
    rw [show debRun D none (DebEv.modify p :: m ++ List.replicate k DebEv.tick)
        = ((debRun D (some (D, p)) (m ++ List.replicate k DebEv.tick)).1,
           [] ++ (debRun D (some (D, p)) (m ++ List.replicate k DebEv.tick)).2) from rfl]
    rw [debRun_append, h2, h3]
    simp
  · intro D t q
    simp [debStep]

/-- Witness for C3: a concrete burst of three events inside a 2-tick
window fires exactly one sync, with the first event's path. -/
theorem claim_C3_witness :
    tickCount [DebEv.modify "q", DebEv.tick, DebEv.modify "r"] ≤ 2 ∧
    2 - tickCount [DebEv.modify "q", DebEv.tick, DebEv.modify "r"] < 2 ∧
    debRun 2 none (DebEv.modify "p0" :: [DebEv.modify "q", DebEv.tick, DebEv.modify "r"]
        ++ List.replicate 2 DebEv.tick) = (none, ["p0"]) :=
  ⟨by decide, by decide,
    claim_C3.1 2 "p0" [DebEv.modify "q", DebEv.tick, DebEv.modify "r"] 2
      (by decide) (by decide)⟩

theorem update_loop_mem (config : J) (apps : List (String × FileState))
    (app : String) (st : FileState) (hmem : (app, st) ∈ apps) :
    (app, (update_one config app st).1) ∈ (update_loop config apps).1 ∧
    (app, (update_one config app st).2) ∈ (update_loop config apps).2 := by
  induction apps with
  | nil => cases hmem
  | cons hd tl ih =>
    obtain ⟨a0, st0⟩ := hd
    rcases List.mem_cons.mp hmem with heq | htl
    · injection heq with h1 h2
      subst h1
      subst h2
      constructor <;> simp [update_loop]
    · have := ih htl
      constructor <;> simp [update_loop, this.1, this.2]

/-- Claim C4: when destructive changes are detected, `force` is false and
the operator declines, `update_configs` returns every app marked
`cancelled` with `success = false` and leaves the filesystem untouched
(the returned file table is the input table). -/
theorem claim_C4 (apps : List (String × FileState)) (dirs : List String)
    (config : J) (custom : Option J) (config1 : J) (ds : List DestructiveReport)
    (hc : applyCustom config custom = some config1)
    (hds : check_destructive_operations apps config1 = some ds)
    (hne : ds ≠ []) :
    update_configs apps dirs config custom false false
      = some (apps.map (fun p => (p.1, ⟨false, "cancelled"⟩)), apps,
              apps.map Prod.fst ++ dirs, config1) := by
  simp [update_configs, hc, hds, hne]

/-- Witness for C4: a concrete run with one destructive target and a
declining operator cancels everything and writes nothing. -/
theorem claim_C4_witness :
    check_destructive_operations
        [("Windsurf", FileState.valid (J.obj [("mcpServers",
            J.obj [("a", J.null), ("b", J.null)])])), ("Claude", FileState.absent)]
        (J.obj [("servers", J.obj [])])
      = some [DestructiveReport.mk "Windsurf" ["a", "b"] ["a", "b"] []] ∧
    update_configs
        [("Windsurf", FileState.valid (J.obj [("mcpServers",
            J.obj [("a", J.null), ("b", J.null)])])), ("Claude", FileState.absent)]
        [] (J.obj [("servers", J.obj [])]) none false false
      = some ([("Windsurf", SyncRes.mk false "cancelled"),
               ("Claude", SyncRes.mk false "cancelled")],
              [("Windsurf", FileState.valid (J.obj [("mcpServers",
                  J.obj [("a", J.null), ("b", J.null)])])), ("Claude", FileState.absent)],
              ["Windsurf", "Claude"], J.obj [("servers", J.obj [])]) := by
  constructor
  · decide
  · exact claim_C4
      [("Windsurf", FileState.valid (J.obj [("mcpServers",
          J.obj [("a", J.null), ("b", J.null)])])), ("Claude", FileState.absent)]
      [] (J.obj [("servers", J.obj [])]) none (J.obj [("servers", J.obj [])])
      [DestructiveReport.mk "Windsurf" ["a", "b"] ["a", "b"] []]
      rfl (by decide) (by decide)

/-- Claim C5: `load_existing_config` returns the empty document for an
absent file and a distinct parse-error outcome (`none`, not an empty
document) for a present-but-malformed file; `update_configs` leaves a
malformed target's file untouched in every run, and in a run that reaches
the write phase (no destructive cancellation) it records that target as a
skipped failure. -/
theorem claim_C5 :
    (load_existing_config FileState.absent = some (J.obj []) ∧
     load_existing_config FileState.malformed = none ∧
     load_existing_config FileState.malformed ≠ load_existing_config FileState.absent) ∧
    (∀ (apps : List (String × FileState)) (dirs : List String) (config : J)
        (custom : Option J) (force confirms : Bool)
        (rs : List (String × SyncRes)) (fs1 : List (String × FileState))
        (dirs1 : List String) (config1 : J) (app : String),
      update_configs apps dirs config custom force confirms
          = some (rs, fs1, dirs1, config1) →
      (app, FileState.malformed) ∈ apps →
      (app, FileState.malformed) ∈ fs1 ∧
      (∀ ds, check_destructive_operations apps config1 = some ds →
        (ds = [] ∨ force = true ∨ confirms = true) →
        (app, SyncRes.mk false "skipped") ∈ rs)) := by
  refine ⟨⟨rfl, rfl, by decide⟩, ?_⟩
  intro apps dirs config custom force confirms rs fs1 dirs1 config1 app hupd hmem
  cases hac : applyCustom config custom with
  | none => simp [update_configs, hac] at hupd
  | some cfg1 =>
    cases hds : check_destructive_operations apps cfg1 with
    | none => simp [update_configs, hac, hds] at hupd
    | some ds0 =>
      simp only [update_configs, hac, hds] at hupd
      by_cases hbr : (!ds0.isEmpty && !force && !confirms) = true
      · rw [if_pos hbr] at hupd
        simp only [Option.some.injEq, Prod.mk.injEq] at hupd
        obtain ⟨h1, h2, h3, h4⟩ := hupd
        subst h2
        refine ⟨hmem, ?_⟩
        intro ds hds2 hor
        subst h4
        rw [hds] at hds2
        injection hds2 with h5
        subst h5
        simp only [Bool.and_eq_true, Bool.not_eq_true'] at hbr
        rcases hor with h | h | h
        · rw [h] at hbr; simp at hbr
        · exact absurd h (by simp [hbr.1.2])
        · exact absurd h (by simp [hbr.2])
      · rw [if_neg hbr] at hupd
        simp only [Option.some.injEq, Prod.mk.injEq] at hupd
        obtain ⟨h1, h2, h3, h4⟩ := hupd
        subst h1
        subst h2
        have hml := update_loop_mem cfg1 apps app FileState.malformed hmem
        have hone : update_one cfg1 app FileState.malformed
            = (SyncRes.mk false "skipped", FileState.malformed) := rfl
        rw [hone] at hml
        exact ⟨hml.2, fun ds hds2 hor => hml.1⟩

/-- Witness for C5: a run over a single malformed target reaches the write
phase, skips the target and leaves its file malformed and unwritten. -/
theorem claim_C5_witness :
    update_configs [("Cursor", FileState.malformed)] [] (J.obj [("servers", J.obj [])])
        none false false
      = some ([("Cursor", SyncRes.mk false "skipped")], [("Cursor", FileState.malformed)],
              ["Cursor"], J.obj [("servers", J.obj [])]) ∧
    (("Cursor", FileState.malformed) ∈
        [("Cursor", FileState.malformed)] ∧
     ("Cursor", SyncRes.mk false "skipped") ∈ [("Cursor", SyncRes.mk false "skipped")]) := by
  constructor
  · decide
  · have h := (claim_C5.2 [("Cursor", FileState.malformed)] [] (J.obj [("servers", J.obj [])])
        none false false [("Cursor", SyncRes.mk false "skipped")]
        [("Cursor", FileState.malformed)] ["Cursor"] (J.obj [("servers", J.obj [])])
        "Cursor" (by decide) (by decide))
    exact ⟨h.1, h.2 [] (by decide) (Or.inl rfl)⟩

/-- Claim C10: `update_configs` ensures every target's parent directory
first, so after any completed run — including one the operator cancelled —
every target app's parent directory is in the returned directory set. -/
theorem claim_C10 (apps : List (String × FileState)) (dirs : List String)
    (config : J) (custom : Option J) (force confirms : Bool)
    (rs : List (String × SyncRes)) (fs1 : List (String × FileState))
    (dirs1 : List String) (config1 : J)
    (hupd : update_configs apps dirs config custom force confirms
        = some (rs, fs1, dirs1, config1)) :
    ∀ app ∈ apps.map Prod.fst, app ∈ dirs1 := by
  intro app hmem
  cases hac : applyCustom config custom with
  | none => simp [update_configs, hac] at hupd
  | some cfg1 =>
    cases hds : check_destructive_operations apps cfg1 with
    | none => simp [update_configs, hac, hds] at hupd
    | some ds0 =>
      simp only [update_configs, hac, hds] at hupd
      have hd : dirs1 = apps.map Prod.fst ++ dirs := by
        by_cases hbr : (!ds0.isEmpty && !force && !confirms) = true
        · rw [if_pos hbr] at hupd
          simp only [Option.some.injEq, Prod.mk.injEq] at hupd
          exact hupd.2.2.1.symm
        · rw [if_neg hbr] at hupd
          simp only [Option.some.injEq, Prod.mk.injEq] at hupd
          exact hupd.2.2.1.symm
      rw [hd]
      exact List.mem_append_left _ hmem

/-- Witness for C10: in a cancelled concrete run the parent directories of
both targets are still created. -/
theorem claim_C10_witness :
    update_configs
        [("Roocode-VSCode", FileState.valid (J.obj [("mcp", J.obj [("servers",
            J.obj [("x", J.null), ("y", J.null)])])])), ("Claude", FileState.absent)]
        [] (J.obj [("servers", J.obj [])]) none false false
      = some ([("Roocode-VSCode", SyncRes.mk false "cancelled"),
               ("Claude", SyncRes.mk false "cancelled")],
              [("Roocode-VSCode", FileState.valid (J.obj [("mcp", J.obj [("servers",
                  J.obj [("x", J.null), ("y", J.null)])])])), ("Claude", FileState.absent)],
              ["Roocode-VSCode", "Claude"], J.obj [("servers", J.obj [])]) ∧
    (∀ app ∈ ([("Roocode-VSCode", FileState.valid (J.obj [("mcp", J.obj [("servers",
          J.obj [("x", J.null), ("y", J.null)])])])),
        ("Claude", FileState.absent)].map Prod.fst), app ∈
        (["Roocode-VSCode", "Claude"] : List String)) := by
  constructor
  · decide
  · exact claim_C10
      [("Roocode-VSCode", FileState.valid (J.obj [("mcp", J.obj [("servers",
          J.obj [("x", J.null), ("y", J.null)])])])), ("Claude", FileState.absent)]
      [] (J.obj [("servers", J.obj [])]) none false false
      [("Roocode-VSCode", SyncRes.mk false "cancelled"), ("Claude", SyncRes.mk false "cancelled")]
      [("Roocode-VSCode", FileState.valid (J.obj [("mcp", J.obj [("servers",
          J.obj [("x", J.null), ("y", J.null)])])])), ("Claude", FileState.absent)]
      ["Roocode-VSCode", "Claude"] (J.obj [("servers", J.obj [])])
      (by decide)

/-- Claim C6: if the source of `sync_from_file` is absent, unparsable, or
extracts to an empty MCP mapping, the call returns `False`, the canonical
config is unchanged and no target file is written (the returned config,
file table and directory set are the inputs). -/
theorem claim_C6 :
    (∀ (apps : List (String × FileState)) (dirs : List String) (config : J)
        (force confirms : Bool),
      sync_from_file apps dirs FileState.absent config force confirms
        = some (false, config, apps, dirs)) ∧
    (∀ (apps : List (String × FileState)) (dirs : List String) (config : J)
        (force confirms : Bool),
      sync_from_file apps dirs FileState.malformed config force confirms
        = some (false, config, apps, dirs)) ∧
    (∀ (apps : List (String × FileState)) (dirs : List String) (config : J)
        (force confirms : Bool) (doc : J) (h : Handler),
      detect_config_format doc = some h →
      extract_mcp_config h doc = some (J.obj []) →
      sync_from_file apps dirs (FileState.valid doc) config force confirms
        = some (false, config, apps, dirs)) := by
  refine ⟨?_, ?_, ?_⟩
  · intro apps dirs config force confirms
    simp [sync_from_file, fileExists]
  · intro apps dirs config force confirms
    simp [sync_from_file, fileExists, load_existing_config]
  · intro apps dirs config force confirms doc h hdet hex
    simp [sync_from_file, fileExists, load_existing_config, hdet, hex, pyTruthy]

/-- Witness for C6: a source whose document is the empty object routes to
the Legacy handler, extracts to an empty mapping, and the sync returns
false leaving everything untouched. -/
theorem claim_C6_witness :
    detect_config_format (J.obj []) = some Handler.legacy ∧
    extract_mcp_config Handler.legacy (J.obj []) = some (J.obj []) ∧
    sync_from_file [("Claude", FileState.absent)] [] (FileState.valid (J.obj []))
        (J.obj [("servers", J.obj [("a", J.null)])]) false false
      = some (false, J.obj [("servers", J.obj [("a", J.null)])],
              [("Claude", FileState.absent)], []) := by
  refine ⟨by decide, by decide, ?_⟩
  exact claim_C6.2.2 [("Claude", FileState.absent)] []
    (J.obj [("servers", J.obj [("a", J.null)])]) false false (J.obj []) Handler.legacy
    (by decide) (by decide)

theorem jget_insertKV_ne (m : List (String × J)) (k k' : String) (v : J)
    (h : ¬ k = k') : Dict.jget (Dict.insertKV m k v) k' = Dict.jget m k' := by
  simp [Dict.jget_insertKV, h]

theorem jget_eraseKey_ne (m : List (String × J)) (k k' : String)
    (h : ¬ k = k') : Dict.jget (Dict.eraseKey m k) k' = Dict.jget m k' := by
  simp [Dict.jget_eraseKey, h]

/-- Claim C9: for every adapter, input document and canonical config, a
top-level key outside the adapter's MCP-relevant keys has the same value
in the merge output as in the input document (the merge never deletes or
alters unrelated keys). -/
theorem claim_C9 (h : Handler) (d c out : J) (k : String)
    (hm : merge_mcp_config h d c = some out) (hk : k ∉ mcpRelevantKeys h) :
    ∃ m m2, d = J.obj m ∧ out = J.obj m2 ∧ Dict.jget m2 k = Dict.jget m k := by
  cases h with
  | claude =>
    have hne : ¬ ("mcpServers" : String) = k := fun he => hk (by simp [mcpRelevantKeys, ← he])
    cases d <;> simp only [merge_mcp_config] at hm
    all_goals try (exact Option.noConfusion hm)
    case obj m =>
      refine ⟨m, ?_⟩
      split at hm
      all_goals try split at hm
      all_goals try split at hm
      all_goals first
        | exact ⟨_, rfl, rfl, jget_insertKV_ne _ _ _ _ hne⟩
        | (injection hm with h1
           subst h1
           exact ⟨_, rfl, rfl, jget_insertKV_ne _ _ _ _ hne⟩)
  | standard =>
    have hne : ¬ ("mcp" : String) = k := fun he => hk (by simp [mcpRelevantKeys, ← he])
    cases d <;> simp only [merge_mcp_config] at hm
    all_goals try (exact Option.noConfusion hm)
    case obj m =>
      injection hm with h1; subst h1
      exact ⟨m, _, rfl, rfl, jget_insertKV_ne _ _ _ _ hne⟩
  | legacy =>
    have hne : ¬ ("mcp" : String) = k := fun he => hk (by simp [mcpRelevantKeys, ← he])
    cases d <;> simp only [merge_mcp_config] at hm
    all_goals try (exact Option.noConfusion hm)
    case obj m =>
      injection hm with h1; subst h1
      exact ⟨m, _, rfl, rfl, jget_insertKV_ne _ _ _ _ hne⟩
  | cursor =>
    have hne1 : ¬ ("mcp" : String) = k := fun he => hk (by simp [mcpRelevantKeys, ← he])
    have hne2 : ¬ ("mcpServers" : String) = k := fun he => hk (by simp [mcpRelevantKeys, ← he])
    cases d <;> simp only [merge_mcp_config] at hm
    all_goals try (exact Option.noConfusion hm)
    case obj m =>
      injection hm with h1; subst h1
      refine ⟨m, _, rfl, rfl, ?_⟩
      rw [jget_eraseKey_ne _ _ _ hne2, jget_insertKV_ne _ _ _ _ hne1]
  | vscode =>
    have hne : ¬ ("mcp" : String) = k := fun he => hk (by simp [mcpRelevantKeys, ← he])
    cases d <;> simp only [merge_mcp_config] at hm
    all_goals try (exact Option.noConfusion hm)
    case obj m =>
      split at hm
      · injection hm with h1; subst h1
        refine ⟨m, _, rfl, rfl, ?_⟩
        rw [jget_insertKV_ne _ _ _ _ hne]
        by_cases hKey : Dict.hasKey m "mcp" = true <;>
          simp [hKey, jget_insertKV_ne _ _ _ _ hne]
      · exact Option.noConfusion hm

/-- Witness for C9: the Cursor merge on a document with an unrelated key
`theme` leaves that key's value untouched. -/
theorem claim_C9_witness :
    merge_mcp_config Handler.cursor
        (J.obj [("theme", J.str "dark"), ("mcpServers", J.obj [])])
        (J.obj [("servers", J.obj [])])
      = some (J.obj [("theme", J.str "dark"), ("mcp", J.obj [("servers", J.obj [])])]) ∧
    "theme" ∉ mcpRelevantKeys Handler.cursor ∧
    ∃ m m2, (J.obj [("theme", J.str "dark"), ("mcpServers", J.obj [])]) = J.obj m ∧
      (J.obj [("theme", J.str "dark"), ("mcp", J.obj [("servers", J.obj [])])]) = J.obj m2 ∧
      Dict.jget m2 "theme" = Dict.jget m "theme" := by
  refine ⟨by decide, by decide, ?_⟩
  exact claim_C9 Handler.cursor
    (J.obj [("theme", J.str "dark"), ("mcpServers", J.obj [])])
    (J.obj [("servers", J.obj [])])
    (J.obj [("theme", J.str "dark"), ("mcp", J.obj [("servers", J.obj [])])])
    "theme" (by decide) (by decide)

theorem assoc_unique_of_nodup {β : Type} (l : List (String × β)) (k : String)
    (a b : β) (hnd : (l.map Prod.fst).Nodup)
    (ha : (k, a) ∈ l) (hb : (k, b) ∈ l) : a = b := by
  induction l with
  | nil => cases ha
  | cons hd tl ih =>
    obtain ⟨k0, v0⟩ := hd
    simp only [List.map_cons, List.nodup_cons] at hnd
    rcases List.mem_cons.mp ha with h1 | h1 <;>
      rcases List.mem_cons.mp hb with h2 | h2
    · injection h1 with e1 e2
      injection h2 with e3 e4
      rw [e2, e4]
    · injection h1 with e1 e2
      exact absurd (e1 ▸ (List.mem_map_of_mem Prod.fst h2)) (by simpa using hnd.1)
    · injection h2 with e1 e2
      exact absurd (e1 ▸ (List.mem_map_of_mem Prod.fst h1)) (by simpa using hnd.1)
    · exact ih hnd.2 h1 h2

theorem check_one_some_iff (S : List (String × J)) (app : String) (st : FileState)
    (r : DestructiveReport) :
    check_destructive_one (J.obj S) app st = some (some r) ↔
    ∃ (d : J) (h2 : Handler) (ex : J) (E : List (String × J)),
      st = FileState.valid d ∧
      detect_config_format d = some h2 ∧
      extract_mcp_config h2 d = some ex ∧
      pyGetAttr ex "servers" (J.obj []) = some (J.obj E) ∧
      E ≠ [] ∧ S.length < E.length ∧
      (E.map Prod.fst).filter (fun kk => !((S.map Prod.fst).contains kk)) ≠ [] ∧
      r = DestructiveReport.mk app (E.map Prod.fst)
            ((E.map Prod.fst).filter (fun kk => !((S.map Prod.fst).contains kk)))
            (S.map Prod.fst) := by
  constructor
  · intro h
    cases st with
    | absent => simp [check_destructive_one, fileExists] at h
    | malformed => simp [check_destructive_one, fileExists, load_existing_config] at h
    | valid d =>
      simp only [check_destructive_one, fileExists, load_existing_config,
        Bool.true_eq_false, if_false] at h
      cases hdet : detect_config_format d with
      | none => rw [hdet] at h; simp at h
      | some h2 =>
        rw [hdet] at h
        simp only [] at h
        cases hex : extract_mcp_config h2 d with
        | none => rw [hex] at h; simp at h
        | some ex =>
          rw [hex] at h
          simp only [] at h
          cases hga : pyGetAttr ex "servers" (J.obj []) with
          | none => rw [hga] at h; simp at h
          | some es =>
            rw [hga] at h
            simp only [] at h
            by_cases ht : pyTruthy es = true
            · rw [if_pos ht] at h
              cases es with
              | obj E =>
                simp only [pyLen] at h
                by_cases hlt : S.length < E.length
                · rw [if_pos hlt] at h
                  simp only [objKeys] at h
                  by_cases hemp : ((E.map Prod.fst).filter
                      (fun kk => !((S.map Prod.fst).contains kk))).isEmpty = true
                  · rw [if_pos hemp] at h; simp at h
                  · rw [if_neg hemp] at h
                    simp only [Option.some.injEq] at h
                    refine ⟨d, h2, ex, E, rfl, hdet, hex, hga, ?_, hlt, ?_, h.symm⟩
                    · intro hE
                      subst hE
                      simp [pyTruthy] at ht
                    · simpa [List.isEmpty_iff] using hemp
                · rw [if_neg hlt] at h; simp at h
              | null => simp [pyTruthy] at ht
              | bool b => simp [pyLen] at h
              | num n => simp [pyLen] at h
              | str s =>
                simp only [pyLen] at h
                by_cases hlt : S.length < s.length
                · rw [if_pos hlt] at h; simp [objKeys] at h
                · rw [if_neg hlt] at h; simp at h
              | arr xs =>
                simp only [pyLen] at h
                by_cases hlt : S.length < xs.length
                · rw [if_pos hlt] at h; simp [objKeys] at h
                · rw [if_neg hlt] at h; simp at h
            · rw [if_neg ht] at h; simp at h
  · rintro ⟨d, h2, ex, E, rfl, hdet, hex, hga, hE, hlt, hlost, rfl⟩
    have ht : pyTruthy (J.obj E) = true := by
      simp [pyTruthy, List.isEmpty_iff, hE]
    have hemp : ((E.map Prod.fst).filter
        (fun kk => !((S.map Prod.fst).contains kk))).isEmpty = false := by
      simpa [List.isEmpty_iff] using hlost
    simp only [check_destructive_one, fileExists, load_existing_config, hdet, hex, hga,
      ht, pyLen, hlt, objKeys, hemp, Bool.true_eq_false, if_false, if_true, if_pos, if_neg]
    simp [hlt, hemp]

theorem check_loop_mem (S : List (String × J)) (apps : List (String × FileState))
    (reports : List DestructiveReport)
    (hl : check_destructive_loop (J.obj S) apps = some reports) :
    ∀ r, r ∈ reports ↔
      ∃ app st, (app, st) ∈ apps ∧
        check_destructive_one (J.obj S) app st = some (some r) := by
  induction apps generalizing reports with
  | nil =>
    simp only [check_destructive_loop, Option.some.injEq] at hl
    subst hl
    simp
  | cons hd tl ih =>
    obtain ⟨app0, st0⟩ := hd
    simp only [check_destructive_loop] at hl
    cases hone : check_destructive_one (J.obj S) app0 st0 with
    | none => rw [hone] at hl; simp at hl
    | some ro =>
      rw [hone] at hl
      cases hrest : check_destructive_loop (J.obj S) tl with
      | none => rw [hrest] at hl; simp at hl
      | some rs =>
        rw [hrest] at hl
        simp only [Option.some.injEq] at hl
        subst hl
        intro r
        have ihr := ih rs hrest r
        cases ro with
        | none =>
          simp only []
          rw [ihr]
          constructor
          · rintro ⟨app, st, hmem, hck⟩
            exact ⟨app, st, List.mem_cons_of_mem _ hmem, hck⟩
          · rintro ⟨app, st, hmem, hck⟩
            rcases List.mem_cons.mp hmem with heq | hmem2
            · injection heq with e1 e2
              subst e1; subst e2
              rw [hone] at hck
              simp at hck
            · exact ⟨app, st, hmem2, hck⟩
        | some rep =>
          simp only [List.mem_cons]
          rw [ihr]
          constructor
          · rintro (rfl | ⟨app, st, hmem, hck⟩)
            · exact ⟨app0, st0, Or.inl rfl, hone⟩
            · exact ⟨app, st, Or.inr hmem, hck⟩
          · rintro ⟨app, st, hmem, hck⟩
            rcases hmem with heq | hmem2
            · injection heq with e1 e2
              subst e1; subst e2
              rw [hone] at hck
              simp only [Option.some.injEq] at hck
              exact Or.inl hck.symm
            · exact Or.inr ⟨app, st, hmem2, hck⟩

/-- Claim C7: `check_destructive_operations` reports exactly those targets
whose existing file parses, whose extracted servers mapping is non-empty
with strictly more entries than the canonical config's servers, and whose
server-name difference against canonical is non-empty (reported as the
lost servers); in particular a target whose server count equals
canonical's is never reported, even if its server names differ. -/
theorem claim_C7 (apps : List (String × FileState)) (config : J)
    (c S : List (String × J)) (reports : List DestructiveReport)
    (hcfg : config = J.obj c)
    (hS : Dict.getD c "servers" (J.obj []) = J.obj S)
    (hchk : check_destructive_operations apps config = some reports)
    (hnd : (apps.map Prod.fst).Nodup) :
    (∀ r : DestructiveReport, r ∈ reports ↔
      ∃ (d : J) (h2 : Handler) (ex : J) (E : List (String × J)),
        (r.app_name, FileState.valid d) ∈ apps ∧
        detect_config_format d = some h2 ∧
        extract_mcp_config h2 d = some ex ∧
        pyGetAttr ex "servers" (J.obj []) = some (J.obj E) ∧
        E ≠ [] ∧ S.length < E.length ∧
        r.existing_servers = E.map Prod.fst ∧
        r.lost_servers = (E.map Prod.fst).filter
          (fun kk => !((S.map Prod.fst).contains kk)) ∧
        r.lost_servers ≠ [] ∧
        r.remaining_servers = S.map Prod.fst) ∧
    (∀ (name : String) (d : J) (h2 : Handler) (ex : J) (E : List (String × J)),
      (name, FileState.valid d) ∈ apps →
      detect_config_format d = some h2 →
      extract_mcp_config h2 d = some ex →
      pyGetAttr ex "servers" (J.obj []) = some (J.obj E) →
      E.length = S.length →
      ∀ r ∈ reports, r.app_name ≠ name) := by
  subst hcfg
  have hloop : check_destructive_loop (J.obj S) apps = some reports := by
    simpa [check_destructive_operations, pyGetAttr, hS] using hchk
  have hmem := check_loop_mem S apps reports hloop
  constructor
  · intro r
    rw [hmem r]
    constructor
    · rintro ⟨app, st, hm, hck⟩
      rw [check_one_some_iff] at hck
      obtain ⟨d, h2, ex, E, rfl, hdet, hex, hga, hE, hlt, hlost, rfl⟩ := hck
      exact ⟨d, h2, ex, E, hm, hdet, hex, hga, hE, hlt, rfl, rfl, hlost, rfl⟩
    · rintro ⟨d, h2, ex, E, hm, hdet, hex, hga, hE, hlt, he1, he2, hlost, he3⟩
      refine ⟨r.app_name, FileState.valid d, hm, ?_⟩
      rw [check_one_some_iff]
      refine ⟨d, h2, ex, E, rfl, hdet, hex, hga, hE, hlt, ?_, ?_⟩
      · rw [← he2]; exact hlost
      · cases r
        simp only [] at he1 he2 he3
        subst he1
        subst he2
        subst he3
        rfl
  · intro name d h2 ex E hm hdet hex hga hlen r hr
    intro hname
    obtain ⟨app, st, hm2, hck⟩ := (hmem r).mp hr
    rw [check_one_some_iff] at hck
    obtain ⟨d2, h22, ex2, E2, rfl, hdet2, hex2, hga2, hE2, hlt2, hlost2, rfl⟩ := hck
    simp only [] at hname
    subst hname
    have heqst := assoc_unique_of_nodup apps app (FileState.valid d) (FileState.valid d2)
      hnd hm hm2
    injection heqst with hd
    subst hd
    rw [hdet] at hdet2
    injection hdet2 with hh
    subst hh
    rw [hex] at hex2
    injection hex2 with hx
    subst hx
    rw [hga] at hga2
    injection hga2 with hE'
    injection hE' with hE''
    rw [← hE''] at hlt2
    omega

/-- Witness for C7: with canonical servers `{a}` and one Windsurf target
holding servers `{a, b}`, the characterization applies and the single
report loses exactly `b`. -/
theorem claim_C7_witness :
    check_destructive_operations
        [("Windsurf", FileState.valid (J.obj [("mcp", J.obj [("servers",
            J.obj [("a", J.null), ("b", J.null)])])])), ("Claude", FileState.absent)]
        (J.obj [("servers", J.obj [("a", J.null)])])
      = some [DestructiveReport.mk "Windsurf" ["a", "b"] ["b"] ["a"]] ∧
    (DestructiveReport.mk "Windsurf" ["a", "b"] ["b"] ["a"]
        ∈ [DestructiveReport.mk "Windsurf" ["a", "b"] ["b"] ["a"]] ↔
      ∃ (d : J) (h2 : Handler) (ex : J) (E : List (String × J)),
        (("Windsurf" : String), FileState.valid d) ∈
          [("Windsurf", FileState.valid (J.obj [("mcp", J.obj [("servers",
              J.obj [("a", J.null), ("b", J.null)])])])), ("Claude", FileState.absent)] ∧
        detect_config_format d = some h2 ∧
        extract_mcp_config h2 d = some ex ∧
        pyGetAttr ex "servers" (J.obj []) = some (J.obj E) ∧
        E ≠ [] ∧ ([("a", J.null)] : List (String × J)).length < E.length ∧
        (["a", "b"] : List String) = E.map Prod.fst ∧
        (["b"] : List String) = (E.map Prod.fst).filter
          (fun kk => !((([("a", J.null)] : List (String × J)).map Prod.fst).contains kk)) ∧
        (["b"] : List String) ≠ [] ∧
        (["a"] : List String) = ([("a", J.null)] : List (String × J)).map Prod.fst) :=
  ⟨by decide,
    (claim_C7
      [("Windsurf", FileState.valid (J.obj [("mcp", J.obj [("servers",
          J.obj [("a", J.null), ("b", J.null)])])])), ("Claude", FileState.absent)]
      (J.obj [("servers", J.obj [("a", J.null)])])
      [("servers", J.obj [("a", J.null)])] [("a", J.null)]
      [DestructiveReport.mk "Windsurf" ["a", "b"] ["b"] ["a"]]
      rfl (by decide) (by decide) (by decide)).1
      (DestructiveReport.mk "Windsurf" ["a", "b"] ["b"] ["a"])⟩

/-- Claim C2 counterexample: a Windsurf target whose pre-existing file is
in Claude Desktop dialect (`{"mcpServers": {}}`) is written through the
Standard handler (write succeeds), but validation re-detects the written
document as Claude Desktop (it still has `mcpServers`) and compares the
stale `mcpServers` value `{}` against canonical's servers `{a}`, reporting
`in_sync = false` for a target whose write succeeded. -/
theorem claim_C2_counterexample :
    update_configs [("Windsurf", FileState.valid (J.obj [("mcpServers", J.obj [])]))]
        [] (J.obj [("servers", J.obj [("a", J.obj [])])]) none false false
      = some ([("Windsurf", SyncRes.mk true "updated")],
              [("Windsurf", FileState.valid (J.obj [("mcpServers", J.obj []),
                  ("mcp", J.obj [("servers", J.obj [("a", J.obj [])])])]))],
              ["Windsurf"], J.obj [("servers", J.obj [("a", J.obj [])])]) ∧
    validate_configs
        [("Windsurf", FileState.valid (J.obj [("mcpServers", J.obj []),
            ("mcp", J.obj [("servers", J.obj [("a", J.obj [])])])]))]
        (J.obj [("servers", J.obj [("a", J.obj [])])])
      = some (false, [("Windsurf", ValRes.mk false (some "mismatch"))]) := by
  constructor
  · decide
  · decide

theorem hasKey_of_mem (m : List (String × J)) (k : String) (v : J)
    (h : (k, v) ∈ m) : Dict.hasKey m k = true := by
  induction m with
  | nil => cases h
  | cons hd tl ih =>
    obtain ⟨k0, v0⟩ := hd
    rcases List.mem_cons.mp h with heq | htl
    · injection heq with e1 e2
      subst e1
      simp [Dict.hasKey, Dict.jget]
    · by_cases hk : k0 = k <;> simp [Dict.hasKey, Dict.jget, hk] at ih ⊢ <;>
        exact ih htl

theorem jget_eq_of_mem_nodup (m : List (String × J)) (k : String) (v : J)
    (hnd : (m.map Prod.fst).Nodup) (h : (k, v) ∈ m) :
    Dict.jget m k = some v := by
  induction m with
  | nil => cases h
  | cons hd tl ih =>
    obtain ⟨k0, v0⟩ := hd
    simp only [List.map_cons, List.nodup_cons] at hnd
    rcases List.mem_cons.mp h with heq | htl
    · injection heq with e1 e2
      subst e1; subst e2
      simp [Dict.jget]
    · by_cases hk : k0 = k
      · subst hk
        exact absurd (List.mem_map_of_mem Prod.fst htl) (by simpa using hnd.1)
      · simp only [Dict.jget, if_neg hk]
        exact ih hnd.2 htl

theorem getD_default_of_hasKey (m : List (String × J)) (k : String) (d1 d2 : J)
    (h : Dict.hasKey m k = true) : Dict.getD m k d1 = Dict.getD m k d2 := by
  unfold Dict.hasKey at h
  unfold Dict.getD
  cases hj : Dict.jget m k with
  | none => rw [hj] at h; simp at h
  | some v => simp

theorem WFobj_mem : ∀ (m : List (String × J)), WFobj m = true →
    ∀ kv ∈ m, WFj kv.2 = true := by
  intro m
  induction m with
  | nil => intro _ kv hkv; cases hkv
  | cons hd tl ih =>
    obtain ⟨k0, v0⟩ := hd
    intro h kv hkv
    rw [WFobj] at h
    simp only [Bool.and_eq_true] at h
    rcases List.mem_cons.mp hkv with heq | htl
    · subst heq; exact h.1
    · exact ih h.2 kv htl

theorem checkItems_of_lookup : ∀ (n : Nat) (l : List (String × J)) (app : J),
    sizeOf l ≤ n →
    (∀ kv ∈ l, kv.1 = "format" ∨
      (pyContains kv.1 app = some true ∧ pySubscript app kv.1 = some kv.2 ∧
       WFj kv.2 = true)) →
    checkItems l app = some true := by
  intro n
  induction n with
  | zero =>
    intro l app h _
    exfalso
    cases l <;> simp at h
  | succ n ih =>
    intro l app hsz hspec
    cases l with
    | nil => simp [checkItems]
    | cons hd rest =>
      obtain ⟨k, rv⟩ := hd
      have hrest : sizeOf rest ≤ n := by
        simp at hsz; omega
      have hspecr : ∀ kv ∈ rest, kv.1 = "format" ∨
          (pyContains kv.1 app = some true ∧ pySubscript app kv.1 = some kv.2 ∧
           WFj kv.2 = true) :=
        fun kv hkv => hspec kv (List.mem_cons_of_mem _ hkv)
      by_cases hk : k = "format"
      · rw [checkItems.eq_def]
        simp only [hk, if_pos rfl, if_true]
        exact ih rest app hrest hspecr
      · have hh := hspec (k, rv) (List.mem_cons_self _ _)
        rcases hh with hfmt | ⟨hc, hs, hwf⟩
        · exact absurd hfmt hk
        · rw [checkItems.eq_def]
          simp only [hk, if_false, hc, hs]
          cases rv with
          | obj r2 =>
            have hnd2 : (r2.map Prod.fst).Nodup := by
              rw [WFj] at hwf
              simp only [Bool.and_eq_true, decide_eq_true_eq] at hwf
              exact hwf.1
            have hwfo : WFobj r2 = true := by
              rw [WFj] at hwf
              simp only [Bool.and_eq_true] at hwf
              exact hwf.2
            have hrec : checkItems r2 (J.obj r2) = some true := by
              apply ih r2 (J.obj r2) (by simp at hsz; omega)
              intro kv hkv
              obtain ⟨k2, v2⟩ := kv
              right
              refine ⟨?_, ?_, WFobj_mem r2 hwfo (k2, v2) hkv⟩
              · simp [pyContains, hasKey_of_mem r2 k2 v2 hkv]
              · simp [pySubscript, jget_eq_of_mem_nodup r2 k2 v2 hnd2 hkv]
            simp [check_nested_j, hrec, ih rest app hrest hspecr]
          | null => simp [ih rest app hrest hspecr]
          | bool b => simp [ih rest app hrest hspecr]
          | num z => simp [ih rest app hrest hspecr]
          | str s => simp [ih rest app hrest hspecr]
          | arr xs => simp [ih rest app hrest hspecr]

theorem getD_of_mem_nodup (m : List (String × J)) (k : String) (v d : J)
    (hnd : (m.map Prod.fst).Nodup) (h : (k, v) ∈ m) :
    Dict.getD m k d = v := by
  unfold Dict.getD
  rw [jget_eq_of_mem_nodup m k v hnd h]
  rfl

theorem checkItems_canonical (c : List (String × J)) (f : String)
    (hsub : ∀ kv ∈ c, kv.1 = "format" ∨ kv.1 = "servers" ∨ kv.1 = "inputs")
    (hwf : WFj (J.obj c) = true) :
    checkItems c (J.obj [("format", J.str f),
        ("servers", Dict.getD c "servers" (J.obj [])),
        ("inputs", Dict.getD c "inputs" (J.arr []))]) = some true := by
  have hnd : (c.map Prod.fst).Nodup := by
    rw [WFj] at hwf
    simp only [Bool.and_eq_true, decide_eq_true_eq] at hwf
    exact hwf.1
  have hwfo : WFobj c = true := by
    rw [WFj] at hwf
    simp only [Bool.and_eq_true] at hwf
    exact hwf.2
  apply checkItems_of_lookup (sizeOf c) c _ (Nat.le_refl _)
  intro kv hkv
  obtain ⟨k, v⟩ := kv
  rcases hsub (k, v) hkv with hf | hse | hin
  · exact Or.inl hf
  · subst hse
    right
    refine ⟨?_, ?_, WFobj_mem c hwfo _ hkv⟩
    · simp [pyContains, Dict.hasKey, Dict.jget]
    · simp only [pySubscript, Dict.jget]
      rw [if_neg (by decide)]
      simp [getD_of_mem_nodup c "servers" v (J.obj []) hnd hkv]
  · subst hin
    right
    refine ⟨?_, ?_, WFobj_mem c hwfo _ hkv⟩
    · simp [pyContains, Dict.hasKey, Dict.jget]
    · simp only [pySubscript, Dict.jget]
      rw [if_neg (by decide), if_neg (by decide)]
      simp [getD_of_mem_nodup c "inputs" v (J.arr []) hnd hkv]

theorem getD_of_not_hasKey (m : List (String × J)) (k : String) (d : J)
    (h : Dict.hasKey m k = false) : Dict.getD m k d = d := by
  unfold Dict.hasKey at h
  unfold Dict.getD
  cases hj : Dict.jget m k with
  | none => simp
  | some v => rw [hj] at h; simp at h

theorem merge_validate_ok (c : List (String × J)) (h : Handler)
    (hserv : Dict.hasKey c "servers" = true)
    (hsub : ∀ kv ∈ c, kv.1 = "format" ∨ kv.1 = "servers" ∨ kv.1 = "inputs")
    (hwf : WFj (J.obj c) = true) :
    ∃ W, merge_mcp_config h (J.obj []) (J.obj c) = some W ∧
      ∃ vr, validate_one (J.obj c) (FileState.valid W) = some vr ∧
        vr.in_sync = true := by
  have hserv' : (Dict.jget c "servers").isSome = true := hserv
  obtain ⟨Sv, hSv⟩ := Option.isSome_iff_exists.mp hserv'
  have hvalStd : ∃ vr, validate_one (J.obj c)
      (FileState.valid (J.obj [("mcp", J.obj c)])) = some vr ∧ vr.in_sync = true := by
    have hdetW : detect_config_format (J.obj [("mcp", J.obj c)]) = some Handler.vscode := by
      simp [detect_config_format, FORMAT_HANDLERS, detectIn, detect_format,
        pyContains, pySubscript, Dict.hasKey, Dict.jget, hSv]
    have hexW : extract_mcp_config Handler.vscode (J.obj [("mcp", J.obj c)])
        = some (J.obj [("format", J.str "vscode"), ("servers", Sv),
            ("inputs", Dict.getD c "inputs" (J.arr []))]) := by
      simp [extract_mcp_config, Dict.getD, Dict.jget, hSv]
    have hchk := checkItems_canonical c "vscode" hsub hwf
    simp only [Dict.getD, hSv, Option.getD_some] at hchk
    refine ⟨⟨true, none⟩, ?_, rfl⟩
    simp [validate_one, fileExists, load_existing_config, hdetW, hexW,
      check_nested_j, Dict.getD, hSv, hchk]
  cases h with
  | standard =>
    exact ⟨J.obj [("mcp", J.obj c)], by simp [merge_mcp_config, Dict.insertKV], hvalStd⟩
  | legacy =>
    exact ⟨J.obj [("mcp", J.obj c)], by simp [merge_mcp_config, Dict.insertKV], hvalStd⟩
  | cursor =>
    refine ⟨J.obj [("mcp", J.obj c)], ?_, hvalStd⟩
    simp [merge_mcp_config, Dict.insertKV, Dict.eraseKey]
  | claude =>
    refine ⟨J.obj [("mcpServers", Sv)], ?_, ?_⟩
    · simp [merge_mcp_config, hserv, Dict.insertKV, Dict.getD, hSv]
    · have hdet : detect_config_format (J.obj [("mcpServers", Sv)])
          = some Handler.claude := by
        simp [detect_config_format, FORMAT_HANDLERS, detectIn, detect_format,
          pyContains, Dict.hasKey, Dict.jget]
      have hex : extract_mcp_config Handler.claude (J.obj [("mcpServers", Sv)])
          = some (J.obj [("format", J.str "claude_desktop"), ("servers", Sv)]) := by
        simp [extract_mcp_config, Dict.getD, Dict.jget]
      by_cases hb : (!pyTruthy Sv && pyTruthy (J.obj c)) = true
      · refine ⟨⟨true, some "format_mismatch_skip"⟩, ?_, rfl⟩
        simp [validate_one, fileExists, load_existing_config, hdet, hex,
          Dict.getD, Dict.hasKey, Dict.jget, hSv, hb]
      · refine ⟨⟨true, none⟩, ?_, rfl⟩
        simp [validate_one, fileExists, load_existing_config, hdet, hex,
          Dict.getD, Dict.hasKey, Dict.jget, hSv, hb]
  | vscode =>
    by_cases hi : Dict.hasKey c "inputs" = true
    · have hi' : (Dict.jget c "inputs").isSome = true := hi
      obtain ⟨Iv, hIv⟩ := Option.isSome_iff_exists.mp hi'
      refine ⟨J.obj [("mcp", J.obj [("servers", Sv), ("inputs", Iv)])], ?_, ?_⟩
      · simp [merge_mcp_config, Dict.insertKV, Dict.getD, Dict.hasKey,
          Dict.jget, hSv, hIv]
      · have hdetW : detect_config_format (J.obj [("mcp",
            J.obj [("servers", Sv), ("inputs", Iv)])]) = some Handler.vscode := by
          simp [detect_config_format, FORMAT_HANDLERS, detectIn, detect_format,
            pyContains, pySubscript, Dict.hasKey, Dict.jget]
        have hexW : extract_mcp_config Handler.vscode (J.obj [("mcp",
            J.obj [("servers", Sv), ("inputs", Iv)])])
            = some (J.obj [("format", J.str "vscode"), ("servers", Sv),
                ("inputs", Iv)]) := by
          simp [extract_mcp_config, Dict.getD, Dict.jget]
        have hchk := checkItems_canonical c "vscode" hsub hwf
        simp only [Dict.getD, hSv, hIv, Option.getD_some] at hchk
        refine ⟨⟨true, none⟩, ?_, rfl⟩
        simp [validate_one, fileExists, load_existing_config, hdetW, hexW,
          check_nested_j, hchk]
    · have hi' : (Dict.jget c "inputs").isSome = false := by
        simpa [Dict.hasKey] using hi
      have hIv : Dict.jget c "inputs" = none := by
        cases hj : Dict.jget c "inputs" with
        | none => rfl
        | some v => rw [hj] at hi'; simp at hi'
      refine ⟨J.obj [("mcp", J.obj [("servers", Sv), ("inputs", J.arr [])])], ?_, ?_⟩
      · simp [merge_mcp_config, Dict.insertKV, Dict.getD, Dict.hasKey,
          Dict.jget, hSv, hIv]
      · have hdetW : detect_config_format (J.obj [("mcp",
            J.obj [("servers", Sv), ("inputs", J.arr [])])]) = some Handler.vscode := by
          simp [detect_config_format, FORMAT_HANDLERS, detectIn, detect_format,
            pyContains, pySubscript, Dict.hasKey, Dict.jget]
        have hexW : extract_mcp_config Handler.vscode (J.obj [("mcp",
            J.obj [("servers", Sv), ("inputs", J.arr [])])])
            = some (J.obj [("format", J.str "vscode"), ("servers", Sv),
                ("inputs", J.arr [])]) := by
          simp [extract_mcp_config, Dict.getD, Dict.jget]
        have hchk := checkItems_canonical c "vscode" hsub hwf
        simp only [Dict.getD, hSv, hIv, Option.getD_some, Option.getD_none] at hchk
        refine ⟨⟨true, none⟩, ?_, rfl⟩
        simp [validate_one, fileExists, load_existing_config, hdetW, hexW,
          check_nested_j, hchk]

theorem check_loop_clean (src : J) : ∀ (apps : List (String × FileState)),
    (∀ p ∈ apps, p.2 = FileState.absent ∨ p.2 = FileState.valid (J.obj [])) →
    check_destructive_loop src apps = some [] := by
  intro apps
  induction apps with
  | nil => intro _; rfl
  | cons hd tl ih =>
    intro hst
    obtain ⟨app0, st0⟩ := hd
    have h0 := hst (app0, st0) (List.mem_cons_self _ _)
    have hone : check_destructive_one src app0 st0 = some none := by
      simp only [] at h0
      rcases h0 with h | h <;> subst h <;> rfl
    simp [check_destructive_loop, hone,
      ih (fun p hp => hst p (List.mem_cons_of_mem _ hp))]

theorem update_validate_clean (c : List (String × J))
    (hserv : Dict.hasKey c "servers" = true)
    (hsub : ∀ kv ∈ c, kv.1 = "format" ∨ kv.1 = "servers" ∨ kv.1 = "inputs")
    (hwf : WFj (J.obj c) = true) :
    ∀ (apps : List (String × FileState)),
    (∀ p ∈ apps, p.2 = FileState.absent ∨ p.2 = FileState.valid (J.obj [])) →
    ∃ rs fs1 vs,
      update_loop (J.obj c) apps = (rs, fs1) ∧
      (∀ p ∈ rs, p.2.success = true) ∧
      validate_loop (J.obj c) fs1 = some vs ∧
      (∀ p ∈ vs, p.2.in_sync = true) := by
  intro apps
  induction apps with
  | nil =>
    intro _
    exact ⟨[], [], [], rfl, by simp, rfl, by simp⟩
  | cons hd tl ih =>
    intro hst
    obtain ⟨app0, st0⟩ := hd
    have h0 := hst (app0, st0) (List.mem_cons_self _ _)
    obtain ⟨W, hmerge, vr, hval, hins0⟩ :=
      merge_validate_ok c (get_app_handler app0) hserv hsub hwf
    have hload : load_existing_config st0 = some (J.obj []) := by
      simp only [] at h0
      rcases h0 with h | h <;> subst h <;> rfl
    have hup : update_one (J.obj c) app0 st0
        = (⟨true, if fileExists st0 then "updated" else "created"⟩,
           FileState.valid W) := by
      simp [update_one, hload, hmerge]
    obtain ⟨rs, fs1, vs, hul, hsucc, hvl, hinsv⟩ :=
      ih (fun p hp => hst p (List.mem_cons_of_mem _ hp))
    refine ⟨(app0, ⟨true, if fileExists st0 then "updated" else "created"⟩) :: rs,
            (app0, FileState.valid W) :: fs1, (app0, vr) :: vs, ?_, ?_, ?_, ?_⟩
    · simp [update_loop, hup, hul]
    · intro p hp
      rcases List.mem_cons.mp hp with heq | htl
      · subst heq; rfl
      · exact hsucc p htl
    · simp [validate_loop, hval, hvl]
    · intro p hp
      rcases List.mem_cons.mp hp with heq | htl
      · subst heq; exact hins0
      · exact hinsv p htl

/-- Claim C2 (amended): after an `update_configs` run in which no
cancellation can occur — canonical config is a mapping whose top-level
keys lie in `{format, servers, inputs}` and include `servers`, with
well-formed (duplicate-free) content, and every target file is absent or
holds the empty object — every write succeeds and a subsequent
`validate_configs` against the same canonical config reports
`in_sync = true` for every target. In general the property fails: a
pre-existing target file in a different dialect than the app's write
handler makes validation re-detect the written file under another format
and report a mismatch even though the write succeeded. -/
theorem claim_C2 (apps : List (String × FileState)) (dirs : List String)
    (c : List (String × J)) (force confirms : Bool)
    (hserv : Dict.hasKey c "servers" = true)
    (hsub : ∀ kv ∈ c, kv.1 = "format" ∨ kv.1 = "servers" ∨ kv.1 = "inputs")
    (hwf : WFj (J.obj c) = true)
    (hstates : ∀ p ∈ apps, p.2 = FileState.absent ∨ p.2 = FileState.valid (J.obj [])) :
    ∃ rs fs1 vs,
      update_configs apps dirs (J.obj c) none force confirms
        = some (rs, fs1, apps.map Prod.fst ++ dirs, J.obj c) ∧
      (∀ p ∈ rs, p.2.success = true) ∧
      validate_configs fs1 (J.obj c) = some (true, vs) := by
  have hchk : check_destructive_operations apps (J.obj c) = some [] := by
    simp only [check_destructive_operations, pyGetAttr]
    exact check_loop_clean _ apps hstates
  obtain ⟨rs, fs1, vs, hul, hsucc, hvl, hinsv⟩ :=
    update_validate_clean c hserv hsub hwf apps hstates
  refine ⟨rs, fs1, vs, ?_, hsucc, ?_⟩
  · simp [update_configs, applyCustom, hchk, hul]
  · simp only [validate_configs, hvl]
    have : vs.all (fun p => p.2.in_sync) = true :=
      List.all_eq_true.mpr (fun p hp => by simpa using hinsv p hp)
    simp [this]

/-- Witness for C2: a concrete clean run over the four dialect families
(Claude, VSCode, Cursor, a Standard app) with canonical
`{servers: {fs: {command: npx}}}` and absent-or-empty targets. -/
theorem claim_C2_witness :
    ∃ rs fs1 vs,
      update_configs
          [("Claude", FileState.absent), ("VSCode", FileState.absent),
           ("Cursor", FileState.valid (J.obj [])), ("Windsurf", FileState.absent)]
          [] (J.obj [("servers", J.obj [("fs", J.obj [("command", J.str "npx")])])])
          none false false
        = some (rs, fs1, ["Claude", "VSCode", "Cursor", "Windsurf"] ++ [],
                J.obj [("servers", J.obj [("fs", J.obj [("command", J.str "npx")])])]) ∧
      (∀ p ∈ rs, p.2.success = true) ∧
      validate_configs fs1
          (J.obj [("servers", J.obj [("fs", J.obj [("command", J.str "npx")])])])
        = some (true, vs) :=
  claim_C2
    [("Claude", FileState.absent), ("VSCode", FileState.absent),
     ("Cursor", FileState.valid (J.obj [])), ("Windsurf", FileState.absent)]
    [] [("servers", J.obj [("fs", J.obj [("command", J.str "npx")])])]
    false false (by decide) (by decide)
    (by simp [WFj, WFobj]) (by decide)
